import Mathlib

/-!
Verification of the Matérn covariance kernel of the GPvecchia repository.

The repository ships `src/Matern.h`, which declares

  `mat MaternFun( mat distmat, vec covparms );`

The body of `MaternFun` is not part of the sources available here, so the
kernel is modelled from the specification (§4.1 of the spec): the branch
structure over the smoothness parameter, the zero-distance interception,
the fail-fast invalid-parameter error, and the elementwise mapping over the
distance matrix.  The external special-function library (Gamma and the
modified Bessel function of the second kind, supplied by boost in the C++
code) is modelled as a pair of function parameters `gamma` and `besselK`,
following the spec's "narrow interface dependency" design note (§9).

Matrices are 2-D arrays of reals, modelled as lists of rows; `entry m i j`
reads the `(i,j)` entry (with an irrelevant default out of range).
-/

namespace GPvecchia

/-- Error taxonomy of the spec (§7): invalid covariance parameters
(`ν ≤ 0` or `ϕ ≤ 0`) are surfaced as an `InvalidParameter` error. -/
inductive MaternError where
  | InvalidParameter
deriving DecidableEq

/-- Modelled from the spec: the scalar Matérn covariance `C(d)` of §4.1,
evaluated for one distance `d` with parameter vector
`covparms = [ν, ϕ, σ², τ²]` (smoothness, range, variance, nugget).
The implementation of `MaternFun` declared in `src/Matern.h` is not in the
sources, so the branch dispatch follows the spec's displayed formula:
zero distance gives the sill `σ² + τ²`; the half-integer smoothness values
`0.5`, `1.5`, `2.5` use their closed forms; otherwise the general formula
`σ² · (2^(1-ν)/Γ(ν)) · (√(2ν)·d/ϕ)^ν · K_ν(√(2ν)·d/ϕ)` is used, with the
external library functions `gamma` and `besselK` taken as parameters. -/
noncomputable def maternScalar (gamma : ℝ → ℝ) (besselK : ℝ → ℝ → ℝ)
    (covparms : Fin 4 → ℝ) (d : ℝ) : ℝ :=
  if d = 0 then covparms 2 + covparms 3
  else if covparms 0 = 0.5 then covparms 2 * Real.exp (-(d / covparms 1))
  else if covparms 0 = 1.5 then
    covparms 2 * (1 + Real.sqrt 3 * d / covparms 1) *
      Real.exp (-(Real.sqrt 3 * d / covparms 1))
  else if covparms 0 = 2.5 then
    covparms 2 * (1 + Real.sqrt 5 * d / covparms 1 + 5 * d ^ 2 / (3 * covparms 1 ^ 2)) *
      Real.exp (-(Real.sqrt 5 * d / covparms 1))
  else
    covparms 2 * ((2 : ℝ) ^ (1 - covparms 0) / gamma (covparms 0)) *
      (Real.sqrt (2 * covparms 0) * d / covparms 1) ^ (covparms 0) *
      besselK (covparms 0) (Real.sqrt (2 * covparms 0) * d / covparms 1)

/-- Modelled from the spec: `MaternFun` (declared in `src/Matern.h`, body not
in the sources).  Fails fast with `InvalidParameter` when `ν ≤ 0` or
`ϕ ≤ 0`, before any matrix entry is computed (§7); otherwise maps the
scalar kernel over every entry of the distance matrix (§4.1). -/
noncomputable def MaternFun (gamma : ℝ → ℝ) (besselK : ℝ → ℝ → ℝ)
    (distmat : List (List ℝ)) (covparms : Fin 4 → ℝ) :
    Except MaternError (List (List ℝ)) :=
  if covparms 0 ≤ 0 ∨ covparms 1 ≤ 0 then Except.error MaternError.InvalidParameter
  else Except.ok (distmat.map fun row => row.map fun d => maternScalar gamma besselK covparms d)

/-- Entry `(i,j)` of a matrix represented as a list of rows. -/
noncomputable def entry (m : List (List ℝ)) (i j : ℕ) : ℝ :=
  (m.getD i []).getD j 0

/-- The covariance matrix produced by `MaternFun` on valid parameters:
the scalar kernel mapped over every entry of the distance matrix. -/
noncomputable def maternOk (gamma : ℝ → ℝ) (besselK : ℝ → ℝ → ℝ)
    (distmat : List (List ℝ)) (covparms : Fin 4 → ℝ) : List (List ℝ) :=
  distmat.map fun row => row.map fun d => maternScalar gamma besselK covparms d

/-- The normalized Matérn correlation produced by the external
special-function interface: `2^(1-ν)/Γ(ν) · x^ν · K_ν(x)`.  The general
branch of `maternScalar` is `σ²` times this quantity at `x = √(2ν)·d/ϕ`. -/
noncomputable def maternCor (gamma : ℝ → ℝ) (besselK : ℝ → ℝ → ℝ) (ν x : ℝ) : ℝ :=
  (2 : ℝ) ^ (1 - ν) / gamma ν * x ^ ν * besselK ν x

/-- The concrete `2×2` distance matrix `[[0,1],[1,0]]` of the spec's
concrete scenario (§8). -/
def D2x2 : List (List ℝ) := [[0, 1], [1, 0]]

/-- A trivial instantiation of the external Gamma interface, used to
instantiate theorems at concrete inputs. -/
def gammaOne : ℝ → ℝ := fun _ => 1

/-- A trivial instantiation of the external Bessel-K interface, used to
instantiate theorems at concrete inputs. -/
def besselZero : ℝ → ℝ → ℝ := fun _ _ => 0

section BranchLemmas

variable (gamma : ℝ → ℝ) (besselK : ℝ → ℝ → ℝ) (covparms : Fin 4 → ℝ) (d : ℝ)

lemma maternScalar_of_zero (h : d = 0) :
    maternScalar gamma besselK covparms d = covparms 2 + covparms 3 := by
  rw [maternScalar, if_pos h]

lemma maternScalar_of_half (h : covparms 0 = 0.5) (hd : d ≠ 0) :
    maternScalar gamma besselK covparms d = covparms 2 * Real.exp (-(d / covparms 1)) := by
  rw [maternScalar, if_neg hd, if_pos h]

lemma maternScalar_of_threehalves (h : covparms 0 = 1.5) (hd : d ≠ 0) :
    maternScalar gamma besselK covparms d =
      covparms 2 * (1 + Real.sqrt 3 * d / covparms 1) *
        Real.exp (-(Real.sqrt 3 * d / covparms 1)) := by
  rw [maternScalar, if_neg hd, if_neg (by rw [h]; norm_num), if_pos h]

lemma maternScalar_of_fivehalves (h : covparms 0 = 2.5) (hd : d ≠ 0) :
    maternScalar gamma besselK covparms d =
      covparms 2 * (1 + Real.sqrt 5 * d / covparms 1 + 5 * d ^ 2 / (3 * covparms 1 ^ 2)) *
        Real.exp (-(Real.sqrt 5 * d / covparms 1)) := by
  rw [maternScalar, if_neg hd, if_neg (by rw [h]; norm_num),
    if_neg (by rw [h]; norm_num), if_pos h]

lemma maternScalar_of_general (h05 : covparms 0 ≠ 0.5) (h15 : covparms 0 ≠ 1.5)
    (h25 : covparms 0 ≠ 2.5) (hd : d ≠ 0) :
    maternScalar gamma besselK covparms d =
      covparms 2 * ((2 : ℝ) ^ (1 - covparms 0) / gamma (covparms 0)) *
        (Real.sqrt (2 * covparms 0) * d / covparms 1) ^ (covparms 0) *
        besselK (covparms 0) (Real.sqrt (2 * covparms 0) * d / covparms 1) := by
  rw [maternScalar, if_neg hd, if_neg h05, if_neg h15, if_neg h25]

lemma maternScalar_general_eq_cor (h05 : covparms 0 ≠ 0.5) (h15 : covparms 0 ≠ 1.5)
    (h25 : covparms 0 ≠ 2.5) (hd : d ≠ 0) :
    maternScalar gamma besselK covparms d =
      covparms 2 *
        maternCor gamma besselK (covparms 0) (Real.sqrt (2 * covparms 0) * d / covparms 1) := by
  rw [maternScalar_of_general gamma besselK covparms d h05 h15 h25 hd, maternCor]
  ring

lemma MaternFun_ok (hν : 0 < covparms 0) (hϕ : 0 < covparms 1)
    (distmat : List (List ℝ)) :
    MaternFun gamma besselK distmat covparms =
      Except.ok (maternOk gamma besselK distmat covparms) := by
  rw [MaternFun, maternOk, if_neg]
  push_neg
  exact ⟨hν, hϕ⟩

end BranchLemmas

lemma entry_map (f : ℝ → ℝ) (D : List (List ℝ)) (i j : ℕ)
    (hi : i < D.length) (hj : j < (D.getD i []).length) :
    entry (D.map fun row => row.map f) i j = f (entry D i j) := by
  unfold entry
  rw [List.getD_eq_getElem D [] hi] at hj ⊢
  rw [List.getD_eq_getElem _ [] (by simpa using hi), List.getElem_map,
    List.getD_eq_getElem _ 0 (by simpa using hj), List.getElem_map,
    List.getD_eq_getElem _ 0 hj]

lemma entry_maternOk (gamma : ℝ → ℝ) (besselK : ℝ → ℝ → ℝ)
    (distmat : List (List ℝ)) (covparms : Fin 4 → ℝ) (i j : ℕ)
    (hi : i < distmat.length) (hj : j < (distmat.getD i []).length) :
    entry (maternOk gamma besselK distmat covparms) i j =
      maternScalar gamma besselK covparms (entry distmat i j) :=
  entry_map _ distmat i j hi hj

section ExpBounds

lemma one_add_le_exp (t : ℝ) : 1 + t ≤ Real.exp t := by
  have := Real.add_one_le_exp t
  linarith

lemma quad_le_exp (t : ℝ) (ht : 0 ≤ t) : 1 + t + t ^ 2 / 3 ≤ Real.exp t := by
  have h := Real.sum_le_exp_of_nonneg ht 3
  have hsum : ∑ i ∈ Finset.range 3, t ^ i / (Nat.factorial i : ℝ) = 1 + t + t ^ 2 / 2 := by
    simp [Finset.sum_range_succ, Nat.factorial]
  rw [hsum] at h
  nlinarith [sq_nonneg t]

/-- The profile `(1+t)·e^(-t)` of the `ν = 1.5` closed form is antitone
on the nonnegative reals. -/
lemma matern15_profile_anti (s t : ℝ) (hs : 0 ≤ s) (hst : s ≤ t) :
    (1 + t) * Real.exp (-t) ≤ (1 + s) * Real.exp (-s) := by
  have hu : 0 ≤ t - s := by linarith
  have h1 : 1 + (t - s) ≤ Real.exp (t - s) := one_add_le_exp (t - s)
  have hmul : (1 + s) * (1 + (t - s)) ≤ (1 + s) * Real.exp (t - s) :=
    mul_le_mul_of_nonneg_left h1 (by linarith)
  have key : 1 + t ≤ (1 + s) * Real.exp (t - s) := by nlinarith
  have hexp : Real.exp (t - s) * Real.exp (-t) = Real.exp (-s) := by
    rw [← Real.exp_add]
    ring_nf
  calc (1 + t) * Real.exp (-t) ≤ (1 + s) * Real.exp (t - s) * Real.exp (-t) :=
        mul_le_mul_of_nonneg_right key (Real.exp_pos _).le
    _ = (1 + s) * Real.exp (-s) := by rw [mul_assoc, hexp]

/-- The profile `(1+t+t²/3)·e^(-t)` of the `ν = 2.5` closed form is antitone
on the nonnegative reals. -/
lemma matern25_profile_anti (s t : ℝ) (hs : 0 ≤ s) (hst : s ≤ t) :
    (1 + t + t ^ 2 / 3) * Real.exp (-t) ≤ (1 + s + s ^ 2 / 3) * Real.exp (-s) := by
  have hu : 0 ≤ t - s := by linarith
  have h1 : 1 + (t - s) + (t - s) ^ 2 / 3 ≤ Real.exp (t - s) := quad_le_exp (t - s) hu
  have hmul : (1 + s + s ^ 2 / 3) * (1 + (t - s) + (t - s) ^ 2 / 3) ≤
      (1 + s + s ^ 2 / 3) * Real.exp (t - s) :=
    mul_le_mul_of_nonneg_left h1 (by nlinarith)
  have key : 1 + t + t ^ 2 / 3 ≤ (1 + s + s ^ 2 / 3) * Real.exp (t - s) := by nlinarith
  have hexp : Real.exp (t - s) * Real.exp (-t) = Real.exp (-s) := by
    rw [← Real.exp_add]
    ring_nf
  calc (1 + t + t ^ 2 / 3) * Real.exp (-t)
      ≤ (1 + s + s ^ 2 / 3) * Real.exp (t - s) * Real.exp (-t) :=
        mul_le_mul_of_nonneg_right key (Real.exp_pos _).le
    _ = (1 + s + s ^ 2 / 3) * Real.exp (-s) := by rw [mul_assoc, hexp]

lemma matern15_profile_le_one (t : ℝ) (ht : 0 ≤ t) : (1 + t) * Real.exp (-t) ≤ 1 := by
  have := matern15_profile_anti 0 t le_rfl ht
  simpa using this

lemma matern25_profile_le_one (t : ℝ) (ht : 0 ≤ t) :
    (1 + t + t ^ 2 / 3) * Real.exp (-t) ≤ 1 := by
  have := matern25_profile_anti 0 t le_rfl ht
  simpa using this

end ExpBounds

section ScalarBounds

variable (gamma : ℝ → ℝ) (besselK : ℝ → ℝ → ℝ) (covparms : Fin 4 → ℝ)

/-- For valid parameters, nonnegative distance, and an external
special-function interface whose normalized correlation lies in `[0,1]`,
the scalar kernel value lies in `[0, σ² + τ²]`. -/
lemma maternScalar_mem (d : ℝ) (hν : 0 < covparms 0) (hϕ : 0 < covparms 1)
    (hσ : 0 ≤ covparms 2) (hτ : 0 ≤ covparms 3) (hd : 0 ≤ d)
    (hcor : ∀ x : ℝ, 0 < x →
      0 ≤ maternCor gamma besselK (covparms 0) x ∧ maternCor gamma besselK (covparms 0) x ≤ 1) :
    0 ≤ maternScalar gamma besselK covparms d ∧
      maternScalar gamma besselK covparms d ≤ covparms 2 + covparms 3 := by
  by_cases h0 : d = 0
  · rw [maternScalar_of_zero gamma besselK covparms d h0]
    exact ⟨by linarith, le_rfl⟩
  by_cases h05 : covparms 0 = 0.5
  · rw [maternScalar_of_half gamma besselK covparms d h05 h0]
    have hexp : Real.exp (-(d / covparms 1)) ≤ 1 :=
      Real.exp_le_one_iff.mpr (neg_nonpos.mpr (div_nonneg hd hϕ.le))
    constructor
    · exact mul_nonneg hσ (Real.exp_pos _).le
    · calc covparms 2 * Real.exp (-(d / covparms 1)) ≤ covparms 2 * 1 :=
            mul_le_mul_of_nonneg_left hexp hσ
        _ ≤ covparms 2 + covparms 3 := by linarith
  by_cases h15 : covparms 0 = 1.5
  · rw [maternScalar_of_threehalves gamma besselK covparms d h15 h0]
    set t := Real.sqrt 3 * d / covparms 1 with hht
    have ht : 0 ≤ t := by positivity
    have hprof := matern15_profile_le_one t ht
    constructor
    · have h1t : (0 : ℝ) ≤ 1 + t := by linarith
      exact mul_nonneg (mul_nonneg hσ h1t) (Real.exp_pos _).le
    · calc covparms 2 * (1 + t) * Real.exp (-t)
          = covparms 2 * ((1 + t) * Real.exp (-t)) := by ring
        _ ≤ covparms 2 * 1 := mul_le_mul_of_nonneg_left hprof hσ
        _ ≤ covparms 2 + covparms 3 := by linarith
  by_cases h25 : covparms 0 = 2.5
  · rw [maternScalar_of_fivehalves gamma besselK covparms d h25 h0]
    set t := Real.sqrt 5 * d / covparms 1 with hht
    have ht : 0 ≤ t := by positivity
    have ht2 : t ^ 2 / 3 = 5 * d ^ 2 / (3 * covparms 1 ^ 2) := by
      rw [hht, div_pow, mul_pow, Real.sq_sqrt (by norm_num : (0 : ℝ) ≤ 5)]
      ring
    have hprof := matern25_profile_le_one t ht
    rw [← ht2]
    constructor
    · have h1t : (0 : ℝ) ≤ 1 + t + t ^ 2 / 3 := by nlinarith
      exact mul_nonneg (mul_nonneg hσ h1t) (Real.exp_pos _).le
    · calc covparms 2 * (1 + t + t ^ 2 / 3) * Real.exp (-t)
          = covparms 2 * ((1 + t + t ^ 2 / 3) * Real.exp (-t)) := by ring
        _ ≤ covparms 2 * 1 := mul_le_mul_of_nonneg_left hprof hσ
        _ ≤ covparms 2 + covparms 3 := by linarith
  · rw [maternScalar_general_eq_cor gamma besselK covparms d h05 h15 h25 h0]
    have hx : 0 < Real.sqrt (2 * covparms 0) * d / covparms 1 := by
      have hdpos : 0 < d := lt_of_le_of_ne hd (Ne.symm h0)
      have h2ν : 0 < 2 * covparms 0 := by linarith
      positivity
    obtain ⟨hc0, hc1⟩ := hcor _ hx
    constructor
    · exact mul_nonneg hσ hc0
    · calc covparms 2 * maternCor gamma besselK (covparms 0) _ ≤ covparms 2 * 1 :=
            mul_le_mul_of_nonneg_left hc1 hσ
        _ ≤ covparms 2 + covparms 3 := by linarith

/-- For valid parameters and an external interface whose normalized
correlation lies in `[0,1]` and is antitone, the scalar kernel value is
non-increasing in the distance. -/
lemma maternScalar_anti (d1 d2 : ℝ) (hν : 0 < covparms 0) (hϕ : 0 < covparms 1)
    (hσ : 0 ≤ covparms 2) (hτ : 0 ≤ covparms 3)
    (hcor : ∀ x : ℝ, 0 < x →
      0 ≤ maternCor gamma besselK (covparms 0) x ∧ maternCor gamma besselK (covparms 0) x ≤ 1)
    (hanti : ∀ x y : ℝ, 0 < x → x ≤ y →
      maternCor gamma besselK (covparms 0) y ≤ maternCor gamma besselK (covparms 0) x)
    (hd1 : 0 ≤ d1) (h12 : d1 ≤ d2) :
    maternScalar gamma besselK covparms d2 ≤ maternScalar gamma besselK covparms d1 := by
  by_cases h1 : d1 = 0
  · rw [maternScalar_of_zero gamma besselK covparms d1 h1]
    exact (maternScalar_mem gamma besselK covparms d2 hν hϕ hσ hτ
      (le_trans hd1 h12) hcor).2
  have hd1pos : 0 < d1 := lt_of_le_of_ne hd1 (Ne.symm h1)
  have hd2pos : 0 < d2 := lt_of_lt_of_le hd1pos h12
  have h2 : d2 ≠ 0 := ne_of_gt hd2pos
  by_cases h05 : covparms 0 = 0.5
  · rw [maternScalar_of_half gamma besselK covparms d1 h05 h1,
      maternScalar_of_half gamma besselK covparms d2 h05 h2]
    have hdiv : d1 / covparms 1 ≤ d2 / covparms 1 := by gcongr
    exact mul_le_mul_of_nonneg_left (Real.exp_le_exp.mpr (by linarith)) hσ
  by_cases h15 : covparms 0 = 1.5
  · rw [maternScalar_of_threehalves gamma besselK covparms d1 h15 h1,
      maternScalar_of_threehalves gamma besselK covparms d2 h15 h2]
    set t1 := Real.sqrt 3 * d1 / covparms 1 with hht1
    set t2 := Real.sqrt 3 * d2 / covparms 1 with hht2
    have ht1 : 0 ≤ t1 := by positivity
    have ht12 : t1 ≤ t2 := by rw [hht1, hht2]; gcongr
    have hprof := matern15_profile_anti t1 t2 ht1 ht12
    calc covparms 2 * (1 + t2) * Real.exp (-t2)
        = covparms 2 * ((1 + t2) * Real.exp (-t2)) := by ring
      _ ≤ covparms 2 * ((1 + t1) * Real.exp (-t1)) :=
          mul_le_mul_of_nonneg_left hprof hσ
      _ = covparms 2 * (1 + t1) * Real.exp (-t1) := by ring
  by_cases h25 : covparms 0 = 2.5
  · rw [maternScalar_of_fivehalves gamma besselK covparms d1 h25 h1,
      maternScalar_of_fivehalves gamma besselK covparms d2 h25 h2]
    set t1 := Real.sqrt 5 * d1 / covparms 1 with hht1
    set t2 := Real.sqrt 5 * d2 / covparms 1 with hht2
    have ht1 : 0 ≤ t1 := by positivity
    have ht12 : t1 ≤ t2 := by rw [hht1, hht2]; gcongr
    have hsq : (0 : ℝ) ≤ 5 := by norm_num
    have he1 : t1 ^ 2 / 3 = 5 * d1 ^ 2 / (3 * covparms 1 ^ 2) := by
      rw [hht1, div_pow, mul_pow, Real.sq_sqrt hsq]
      ring
    have he2 : t2 ^ 2 / 3 = 5 * d2 ^ 2 / (3 * covparms 1 ^ 2) := by
      rw [hht2, div_pow, mul_pow, Real.sq_sqrt hsq]
      ring
    rw [← he1, ← he2]
    have hprof := matern25_profile_anti t1 t2 ht1 ht12
    calc covparms 2 * (1 + t2 + t2 ^ 2 / 3) * Real.exp (-t2)
        = covparms 2 * ((1 + t2 + t2 ^ 2 / 3) * Real.exp (-t2)) := by ring
      _ ≤ covparms 2 * ((1 + t1 + t1 ^ 2 / 3) * Real.exp (-t1)) :=
          mul_le_mul_of_nonneg_left hprof hσ
      _ = covparms 2 * (1 + t1 + t1 ^ 2 / 3) * Real.exp (-t1) := by ring
  · rw [maternScalar_general_eq_cor gamma besselK covparms d1 h05 h15 h25 h1,
      maternScalar_general_eq_cor gamma besselK covparms d2 h05 h15 h25 h2]
    have h2ν : 0 < 2 * covparms 0 := by linarith
    have hx1 : 0 < Real.sqrt (2 * covparms 0) * d1 / covparms 1 := by positivity
    have hx12 : Real.sqrt (2 * covparms 0) * d1 / covparms 1 ≤
        Real.sqrt (2 * covparms 0) * d2 / covparms 1 := by gcongr
    exact mul_le_mul_of_nonneg_left (hanti _ _ hx1 hx12) hσ

end ScalarBounds

/-- C1: for every distance matrix, every entry position with positive
distance `d`, and every valid parameter vector `[ν, ϕ, σ², τ²]` with
`ν > 0`, `ϕ > 0` and `ν ∉ {0.5, 1.5, 2.5}`, the corresponding output entry
of `MaternFun` equals `σ² · (2^(1-ν)/Γ(ν)) · (√(2ν)·d/ϕ)^ν · K_ν(√(2ν)·d/ϕ)`,
where `Γ` and `K` are the external special-function library. -/
theorem matern_general_entry (gamma : ℝ → ℝ) (besselK : ℝ → ℝ → ℝ)
    (distmat : List (List ℝ)) (covparms : Fin 4 → ℝ) (i j : ℕ)
    (hν : 0 < covparms 0) (hϕ : 0 < covparms 1)
    (h05 : covparms 0 ≠ 0.5) (h15 : covparms 0 ≠ 1.5) (h25 : covparms 0 ≠ 2.5)
    (hi : i < distmat.length) (hj : j < (distmat.getD i []).length)
    (hd : 0 < entry distmat i j) :
    MaternFun gamma besselK distmat covparms =
        Except.ok (maternOk gamma besselK distmat covparms) ∧
      entry (maternOk gamma besselK distmat covparms) i j =
        covparms 2 * ((2 : ℝ) ^ (1 - covparms 0) / gamma (covparms 0)) *
          (Real.sqrt (2 * covparms 0) * entry distmat i j / covparms 1) ^ (covparms 0) *
          besselK (covparms 0) (Real.sqrt (2 * covparms 0) * entry distmat i j / covparms 1) := by
  refine ⟨MaternFun_ok gamma besselK covparms hν hϕ distmat, ?_⟩
  rw [entry_maternOk gamma besselK distmat covparms i j hi hj,
    maternScalar_of_general gamma besselK covparms _ h05 h15 h25 (ne_of_gt hd)]

theorem matern_general_entry_witness :
    MaternFun gammaOne besselZero D2x2 ![1, 1, 1, 0] =
        Except.ok (maternOk gammaOne besselZero D2x2 ![1, 1, 1, 0]) ∧
      entry (maternOk gammaOne besselZero D2x2 ![1, 1, 1, 0]) 0 1 = 0 := by
  obtain ⟨hok, hval⟩ := matern_general_entry gammaOne besselZero D2x2 ![1, 1, 1, 0] 0 1
    (by norm_num) (by norm_num) (by norm_num) (by norm_num) (by norm_num)
    (by norm_num [D2x2]) (by norm_num [D2x2]) (by norm_num [entry, D2x2])
  refine ⟨hok, ?_⟩
  rw [hval]
  simp [besselZero]

/-- C2: for every distance matrix and valid parameters, every output entry
at a position where the distance is exactly `0` equals `σ² + τ²`,
independently of `ν`, `ϕ` and of the external Bessel/Gamma interface
(the general branch is intercepted by the zero test). -/
theorem matern_zero_distance (gamma : ℝ → ℝ) (besselK : ℝ → ℝ → ℝ)
    (distmat : List (List ℝ)) (covparms : Fin 4 → ℝ) (i j : ℕ)
    (hν : 0 < covparms 0) (hϕ : 0 < covparms 1)
    (hi : i < distmat.length) (hj : j < (distmat.getD i []).length)
    (h0 : entry distmat i j = 0) :
    MaternFun gamma besselK distmat covparms =
        Except.ok (maternOk gamma besselK distmat covparms) ∧
      entry (maternOk gamma besselK distmat covparms) i j =
        covparms 2 + covparms 3 := by
  refine ⟨MaternFun_ok gamma besselK covparms hν hϕ distmat, ?_⟩
  rw [entry_maternOk gamma besselK distmat covparms i j hi hj,
    maternScalar_of_zero gamma besselK covparms _ h0]

theorem matern_zero_distance_witness :
    MaternFun gammaOne besselZero D2x2 ![0.5, 1, 2, 0.1] =
        Except.ok (maternOk gammaOne besselZero D2x2 ![0.5, 1, 2, 0.1]) ∧
      entry (maternOk gammaOne besselZero D2x2 ![0.5, 1, 2, 0.1]) 0 0 = 2.1 := by
  obtain ⟨hok, hval⟩ := matern_zero_distance gammaOne besselZero D2x2
    ![0.5, 1, 2, 0.1] 0 0 (by norm_num) (by norm_num)
    (by norm_num [D2x2]) (by norm_num [D2x2]) (by norm_num [entry, D2x2])
  refine ⟨hok, ?_⟩
  rw [hval]
  norm_num

/-- C3: for every distance matrix and parameters with `ν = 0.5`, `ϕ > 0`,
every output entry at a position with positive distance `d` equals the
exponential kernel `σ² · exp(-d/ϕ)`. -/
theorem matern_half_exponential (gamma : ℝ → ℝ) (besselK : ℝ → ℝ → ℝ)
    (distmat : List (List ℝ)) (covparms : Fin 4 → ℝ) (i j : ℕ)
    (h05 : covparms 0 = 0.5) (hϕ : 0 < covparms 1)
    (hi : i < distmat.length) (hj : j < (distmat.getD i []).length)
    (hd : 0 < entry distmat i j) :
    MaternFun gamma besselK distmat covparms =
        Except.ok (maternOk gamma besselK distmat covparms) ∧
      entry (maternOk gamma besselK distmat covparms) i j =
        covparms 2 * Real.exp (-(entry distmat i j / covparms 1)) := by
  have hν : 0 < covparms 0 := by rw [h05]; norm_num
  refine ⟨MaternFun_ok gamma besselK covparms hν hϕ distmat, ?_⟩
  rw [entry_maternOk gamma besselK distmat covparms i j hi hj,
    maternScalar_of_half gamma besselK covparms _ h05 (ne_of_gt hd)]

theorem matern_half_exponential_witness :
    MaternFun gammaOne besselZero D2x2 ![0.5, 1, 2, 0.1] =
        Except.ok (maternOk gammaOne besselZero D2x2 ![0.5, 1, 2, 0.1]) ∧
      entry (maternOk gammaOne besselZero D2x2 ![0.5, 1, 2, 0.1]) 0 1 =
        2 * Real.exp (-1) := by
  obtain ⟨hok, hval⟩ := matern_half_exponential gammaOne besselZero D2x2
    ![0.5, 1, 2, 0.1] 0 1 (by norm_num) (by norm_num)
    (by norm_num [D2x2]) (by norm_num [D2x2]) (by norm_num [entry, D2x2])
  refine ⟨hok, ?_⟩
  rw [hval]
  norm_num [entry, D2x2]

/-- C4: for every positive distance `d` and `ϕ > 0`, a parameter vector with
`ν = 1.5` yields the entry `σ²·(1+√3·d/ϕ)·exp(-√3·d/ϕ)` and one with
`ν = 2.5` yields `σ²·(1+√5·d/ϕ+5d²/(3ϕ²))·exp(-√5·d/ϕ)`; the result does
not involve the external Bessel/Gamma interface (the closed forms are used
instead of the general expression). -/
theorem matern_halfint_closed_forms (gamma : ℝ → ℝ) (besselK : ℝ → ℝ → ℝ)
    (distmat : List (List ℝ)) (p q : Fin 4 → ℝ) (i j : ℕ)
    (hp : p 0 = 1.5) (hq : q 0 = 2.5) (hpϕ : 0 < p 1) (hqϕ : 0 < q 1)
    (hi : i < distmat.length) (hj : j < (distmat.getD i []).length)
    (hd : 0 < entry distmat i j) :
    (MaternFun gamma besselK distmat p = Except.ok (maternOk gamma besselK distmat p) ∧
      entry (maternOk gamma besselK distmat p) i j =
        p 2 * (1 + Real.sqrt 3 * entry distmat i j / p 1) *
          Real.exp (-(Real.sqrt 3 * entry distmat i j / p 1))) ∧
    (MaternFun gamma besselK distmat q = Except.ok (maternOk gamma besselK distmat q) ∧
      entry (maternOk gamma besselK distmat q) i j =
        q 2 * (1 + Real.sqrt 5 * entry distmat i j / q 1 +
            5 * entry distmat i j ^ 2 / (3 * q 1 ^ 2)) *
          Real.exp (-(Real.sqrt 5 * entry distmat i j / q 1))) := by
  have hpν : 0 < p 0 := by rw [hp]; norm_num
  have hqν : 0 < q 0 := by rw [hq]; norm_num
  constructor
  · refine ⟨MaternFun_ok gamma besselK p hpν hpϕ distmat, ?_⟩
    rw [entry_maternOk gamma besselK distmat p i j hi hj,
      maternScalar_of_threehalves gamma besselK p _ hp (ne_of_gt hd)]
  · refine ⟨MaternFun_ok gamma besselK q hqν hqϕ distmat, ?_⟩
    rw [entry_maternOk gamma besselK distmat q i j hi hj,
      maternScalar_of_fivehalves gamma besselK q _ hq (ne_of_gt hd)]

theorem matern_halfint_closed_forms_witness :
    (MaternFun gammaOne besselZero D2x2 ![1.5, 1, 1, 0] =
        Except.ok (maternOk gammaOne besselZero D2x2 ![1.5, 1, 1, 0]) ∧
      entry (maternOk gammaOne besselZero D2x2 ![1.5, 1, 1, 0]) 0 1 =
        (1 + Real.sqrt 3) * Real.exp (-Real.sqrt 3)) ∧
    (MaternFun gammaOne besselZero D2x2 ![2.5, 1, 1, 0] =
        Except.ok (maternOk gammaOne besselZero D2x2 ![2.5, 1, 1, 0]) ∧
      entry (maternOk gammaOne besselZero D2x2 ![2.5, 1, 1, 0]) 0 1 =
        (1 + Real.sqrt 5 + 5 / 3) * Real.exp (-Real.sqrt 5)) := by
  have h := matern_halfint_closed_forms gammaOne besselZero D2x2
    ![1.5, 1, 1, 0] ![2.5, 1, 1, 0] 0 1 (by norm_num) (by norm_num)
    (by norm_num) (by norm_num)
    (by norm_num [D2x2]) (by norm_num [D2x2]) (by norm_num [entry, D2x2])
  have he : entry D2x2 0 1 = 1 := by norm_num [entry, D2x2]
  obtain ⟨⟨hok1, hv1⟩, ⟨hok2, hv2⟩⟩ := h
  rw [he] at hv1 hv2
  constructor
  · refine ⟨hok1, ?_⟩
    rw [hv1]
    norm_num
  · refine ⟨hok2, ?_⟩
    rw [hv2]
    norm_num

/-- C5: for every distance matrix and every parameter vector with `ν ≤ 0`
or `ϕ ≤ 0`, `MaternFun` signals the `InvalidParameter` error and returns no
output matrix (the `Except.error` result carries no matrix at all). -/
theorem matern_invalid_param (gamma : ℝ → ℝ) (besselK : ℝ → ℝ → ℝ)
    (distmat : List (List ℝ)) (covparms : Fin 4 → ℝ)
    (h : covparms 0 ≤ 0 ∨ covparms 1 ≤ 0) :
    MaternFun gamma besselK distmat covparms =
      Except.error MaternError.InvalidParameter := by
  rw [MaternFun, if_pos h]

theorem matern_invalid_param_witness :
    MaternFun gammaOne besselZero D2x2 ![-1, 1, 1, 0] =
        Except.error MaternError.InvalidParameter ∧
      MaternFun gammaOne besselZero D2x2 ![1, 0, 1, 0] =
        Except.error MaternError.InvalidParameter :=
  ⟨matern_invalid_param gammaOne besselZero D2x2 ![-1, 1, 1, 0] (Or.inl (by norm_num)),
   matern_invalid_param gammaOne besselZero D2x2 ![1, 0, 1, 0] (Or.inr (by norm_num))⟩

/-- C6: for every distance matrix with nonnegative entries and valid
parameters (`ν > 0`, `ϕ > 0`, `σ² ≥ 0`, `τ² ≥ 0`), every output entry lies
in `[0, σ² + τ²]`, provided the external special-function interface
satisfies the standard Matérn normalization (the normalized correlation
`2^(1-ν)/Γ(ν)·x^ν·K_ν(x)` lies in `[0,1]` for `x > 0`, a property of the
genuine Gamma/Bessel-K pair). -/
theorem matern_bounded (gamma : ℝ → ℝ) (besselK : ℝ → ℝ → ℝ)
    (distmat : List (List ℝ)) (covparms : Fin 4 → ℝ) (i j : ℕ)
    (hν : 0 < covparms 0) (hϕ : 0 < covparms 1)
    (hσ : 0 ≤ covparms 2) (hτ : 0 ≤ covparms 3)
    (hD : ∀ k l : ℕ, k < distmat.length → l < (distmat.getD k []).length →
      0 ≤ entry distmat k l)
    (hcor : ∀ x : ℝ, 0 < x →
      0 ≤ maternCor gamma besselK (covparms 0) x ∧
        maternCor gamma besselK (covparms 0) x ≤ 1)
    (hi : i < distmat.length) (hj : j < (distmat.getD i []).length) :
    MaternFun gamma besselK distmat covparms =
        Except.ok (maternOk gamma besselK distmat covparms) ∧
      0 ≤ entry (maternOk gamma besselK distmat covparms) i j ∧
        entry (maternOk gamma besselK distmat covparms) i j ≤
          covparms 2 + covparms 3 := by
  refine ⟨MaternFun_ok gamma besselK covparms hν hϕ distmat, ?_⟩
  rw [entry_maternOk gamma besselK distmat covparms i j hi hj]
  exact maternScalar_mem gamma besselK covparms _ hν hϕ hσ hτ (hD i j hi hj) hcor

theorem matern_bounded_witness :
    MaternFun gammaOne besselZero D2x2 ![0.5, 1, 2, 0.1] =
        Except.ok (maternOk gammaOne besselZero D2x2 ![0.5, 1, 2, 0.1]) ∧
      0 ≤ entry (maternOk gammaOne besselZero D2x2 ![0.5, 1, 2, 0.1]) 0 1 ∧
        entry (maternOk gammaOne besselZero D2x2 ![0.5, 1, 2, 0.1]) 0 1 ≤ 2.1 := by
  have h := matern_bounded gammaOne besselZero D2x2 ![0.5, 1, 2, 0.1] 0 1
    (by norm_num) (by norm_num) (by norm_num) (by norm_num)
    (by
      intro k l hk hl
      have hk2 : k < 2 := by simpa [D2x2] using hk
      interval_cases k
      · have hl2 : l < 2 := by simpa [D2x2] using hl
        interval_cases l <;> norm_num [entry, D2x2]
      · have hl2 : l < 2 := by simpa [D2x2] using hl
        interval_cases l <;> norm_num [entry, D2x2])
    (by intro x hx; norm_num [maternCor, besselZero])
    (by norm_num [D2x2]) (by norm_num [D2x2])
  obtain ⟨hok, h0, h1⟩ := h
  exact ⟨hok, h0, by linarith [h1, show (![0.5, 1, 2, 0.1] : Fin 4 → ℝ) 2 +
    (![0.5, 1, 2, 0.1] : Fin 4 → ℝ) 3 = 2.1 by norm_num]⟩

/-- C7: for every valid parameter vector, if the distance matrix is square
(`n` rows, each of length `n`) and symmetric, then the output matrix of
`MaternFun` is symmetric. -/
theorem matern_symmetric (gamma : ℝ → ℝ) (besselK : ℝ → ℝ → ℝ)
    (distmat : List (List ℝ)) (covparms : Fin 4 → ℝ) (n k l : ℕ)
    (hν : 0 < covparms 0) (hϕ : 0 < covparms 1)
    (hlen : distmat.length = n) (hrows : ∀ row ∈ distmat, row.length = n)
    (hsymm : ∀ a b : ℕ, a < n → b < n → entry distmat a b = entry distmat b a)
    (hk : k < n) (hl : l < n) :
    MaternFun gamma besselK distmat covparms =
        Except.ok (maternOk gamma besselK distmat covparms) ∧
      entry (maternOk gamma besselK distmat covparms) k l =
        entry (maternOk gamma besselK distmat covparms) l k := by
  refine ⟨MaternFun_ok gamma besselK covparms hν hϕ distmat, ?_⟩
  have hk1 : k < distmat.length := by rw [hlen]; exact hk
  have hl1 : l < distmat.length := by rw [hlen]; exact hl
  have hrowk : (distmat.getD k []).length = n := by
    rw [List.getD_eq_getElem distmat [] hk1]
    exact hrows _ (List.getElem_mem hk1)
  have hrowl : (distmat.getD l []).length = n := by
    rw [List.getD_eq_getElem distmat [] hl1]
    exact hrows _ (List.getElem_mem hl1)
  rw [entry_maternOk gamma besselK distmat covparms k l hk1 (by rw [hrowk]; exact hl),
    entry_maternOk gamma besselK distmat covparms l k hl1 (by rw [hrowl]; exact hk),
    hsymm k l hk hl]

theorem matern_symmetric_witness :
    MaternFun gammaOne besselZero D2x2 ![0.5, 1, 2, 0.1] =
        Except.ok (maternOk gammaOne besselZero D2x2 ![0.5, 1, 2, 0.1]) ∧
      entry (maternOk gammaOne besselZero D2x2 ![0.5, 1, 2, 0.1]) 0 1 =
        entry (maternOk gammaOne besselZero D2x2 ![0.5, 1, 2, 0.1]) 1 0 :=
  matern_symmetric gammaOne besselZero D2x2 ![0.5, 1, 2, 0.1] 2 0 1
    (by norm_num) (by norm_num) (by norm_num [D2x2])
    (by
      intro row hr
      rcases (by simpa [D2x2] using hr : row = [0, 1] ∨ row = [1, 0]) with h | h <;>
        simp [h])
    (by
      intro a b ha hb
      interval_cases a <;> interval_cases b <;> norm_num [entry, D2x2])
    (by norm_num) (by norm_num)

/-- C8: for fixed valid `ν > 0`, `ϕ > 0`, `σ² ≥ 0` with nugget `τ² = 0`,
the scalar covariance value produced by the kernel is non-increasing in the
distance, provided the external special-function interface satisfies the
standard Matérn normalization (normalized correlation in `[0,1]` and
antitone for positive arguments, properties of the genuine Gamma/Bessel-K
pair). -/
theorem matern_monotone_decay (gamma : ℝ → ℝ) (besselK : ℝ → ℝ → ℝ)
    (covparms : Fin 4 → ℝ) (d1 d2 : ℝ)
    (hν : 0 < covparms 0) (hϕ : 0 < covparms 1) (hσ : 0 ≤ covparms 2)
    (hτ0 : covparms 3 = 0)
    (hcor : ∀ x : ℝ, 0 < x →
      0 ≤ maternCor gamma besselK (covparms 0) x ∧
        maternCor gamma besselK (covparms 0) x ≤ 1)
    (hanti : ∀ x y : ℝ, 0 < x → x ≤ y →
      maternCor gamma besselK (covparms 0) y ≤ maternCor gamma besselK (covparms 0) x)
    (hd1 : 0 ≤ d1) (h12 : d1 ≤ d2) :
    maternScalar gamma besselK covparms d2 ≤ maternScalar gamma besselK covparms d1 :=
  maternScalar_anti gamma besselK covparms d1 d2 hν hϕ hσ (hτ0 ▸ le_rfl) hcor hanti hd1 h12

theorem matern_monotone_decay_witness :
    maternScalar gammaOne besselZero ![0.5, 1, 2, 0] 2 ≤
      maternScalar gammaOne besselZero ![0.5, 1, 2, 0] 1 :=
  matern_monotone_decay gammaOne besselZero ![0.5, 1, 2, 0] 1 2
    (by norm_num) (by norm_num) (by norm_num) (by norm_num)
    (by intro x hx; norm_num [maternCor, besselZero])
    (by intro x y hx hxy; norm_num [maternCor, besselZero])
    (by norm_num) (by norm_num)

/-- C9: for every distance matrix (square or rectangular) and valid
parameters, the matrix returned by `MaternFun` has exactly the same number
of rows as the input, and every row has the same length as the
corresponding input row. -/
theorem matern_shape (gamma : ℝ → ℝ) (besselK : ℝ → ℝ → ℝ)
    (distmat : List (List ℝ)) (covparms : Fin 4 → ℝ)
    (hν : 0 < covparms 0) (hϕ : 0 < covparms 1) :
    MaternFun gamma besselK distmat covparms =
        Except.ok (maternOk gamma besselK distmat covparms) ∧
      (maternOk gamma besselK distmat covparms).length = distmat.length ∧
      ∀ i : ℕ, i < distmat.length →
        ((maternOk gamma besselK distmat covparms).getD i []).length =
          (distmat.getD i []).length := by
  refine ⟨MaternFun_ok gamma besselK covparms hν hϕ distmat, ?_, ?_⟩
  · rw [maternOk, List.length_map]
  · intro i hi
    rw [maternOk, List.getD_eq_getElem _ [] (by simpa using hi), List.getElem_map,
      List.length_map, List.getD_eq_getElem distmat [] hi]

theorem matern_shape_witness :
    MaternFun gammaOne besselZero D2x2 ![0.5, 1, 2, 0.1] =
        Except.ok (maternOk gammaOne besselZero D2x2 ![0.5, 1, 2, 0.1]) ∧
      (maternOk gammaOne besselZero D2x2 ![0.5, 1, 2, 0.1]).length = D2x2.length ∧
      ((maternOk gammaOne besselZero D2x2 ![0.5, 1, 2, 0.1]).getD 0 []).length =
        (D2x2.getD 0 []).length := by
  obtain ⟨hok, hlen, hrow⟩ := matern_shape gammaOne besselZero D2x2 ![0.5, 1, 2, 0.1]
    (by norm_num) (by norm_num)
  exact ⟨hok, hlen, hrow 0 (by norm_num [D2x2])⟩

/-- C10: `MaternFun` is a pure function of its inputs: two calls with
identical distance matrices and parameter vectors return identical results
(the shallow embedding is stateless by construction, so no state persists
between calls and the inputs are not mutated). -/
theorem matern_pure (gamma : ℝ → ℝ) (besselK : ℝ → ℝ → ℝ)
    (distmat1 distmat2 : List (List ℝ)) (covparms1 covparms2 : Fin 4 → ℝ)
    (hD : distmat1 = distmat2) (hp : covparms1 = covparms2) :
    MaternFun gamma besselK distmat1 covparms1 =
      MaternFun gamma besselK distmat2 covparms2 := by
  rw [hD, hp]

theorem matern_pure_witness :
    MaternFun gammaOne besselZero D2x2 ![0.5, 1, 2, 0.1] =
      MaternFun gammaOne besselZero D2x2 ![0.5, 1, 2, 0.1] :=
  matern_pure gammaOne besselZero D2x2 D2x2 ![0.5, 1, 2, 0.1] ![0.5, 1, 2, 0.1] rfl rfl

end GPvecchia
